import Mathlib

/-!
Verification of `pyroSAR/ancillary.py`.

The module's functions are shallowly embedded here:

* `seconds`      — timestamp extraction from a filename (`re.findall('[0-9T]{15}', ...)`
  followed by `datetime.strptime(..., '%Y%m%dT%H%M%S')` and subtraction of
  `datetime(1900, 1, 1)`);
* `groupbyTime`  — grouping of images by acquisition-time difference;
* `parse_datasetname` — decomposition of a product filename into its metadata
  mapping (the externally defined `product_pattern` is kept abstract, a
  parameter `pat`);
* `find_datasets` — directory filtering by metadata constraints (the external
  `finder` collaborator is modelled by its returned file list).

Strings are modelled as `List Char`, Python floats produced by
`timedelta.total_seconds()` as integers (the embedded format carries whole
seconds only, so the float is exact), and Python exceptions as `Except`/`Option`
results.
-/

deriving instance DecidableEq for Except

/-! ## Calendar model (CPython `datetime`) -/

/-- Leap-year test, as in CPython `datetime._is_leap`. -/
def isLeap (y : ℕ) : Bool :=
  y % 4 = 0 && (y % 100 ≠ 0 || y % 400 = 0)

/-- Days in a month, as in CPython `datetime._days_in_month`. -/
def daysInMonth (y m : ℕ) : ℕ :=
  if m = 2 then (if isLeap y then 29 else 28)
  else if m = 4 ∨ m = 6 ∨ m = 9 ∨ m = 11 then 30
  else 31

/-- Days in the months of year `y` strictly before month `m`
(CPython `datetime._days_before_month`). -/
def daysBeforeMonth (y m : ℕ) : ℕ :=
  ((List.range (m - 1)).map (fun i => daysInMonth y (i + 1))).sum

/-- Days in proleptic-Gregorian years strictly before year `y`
(CPython `datetime._days_before_year`). -/
def daysBeforeYear (y : ℕ) : ℕ :=
  (y - 1) * 365 + (y - 1) / 4 - (y - 1) / 100 + (y - 1) / 400

/-- Proleptic Gregorian ordinal of a date, as in CPython `datetime._ymd2ord`
(`date(1, 1, 1).toordinal() = 1`). -/
def toordinal (y m d : ℕ) : ℤ :=
  (daysBeforeYear y : ℤ) + (daysBeforeMonth y m : ℤ) + (d : ℤ)

/-- A parsed `datetime.datetime` value (whole seconds; the embedded format
`%Y%m%dT%H%M%S` has no sub-second part). -/
structure DateTime where
  year : ℕ
  month : ℕ
  day : ℕ
  hour : ℕ
  minute : ℕ
  second : ℕ
deriving DecidableEq

/-- Python `(datetime(y,m,d,h,mi,s) - datetime(1900,1,1)).total_seconds()`:
the day difference is taken via `toordinal`, the remainder is the time of day.
The value is a whole number of seconds, modelled as an integer. -/
def epochSeconds (dt : DateTime) : ℤ :=
  86400 * (toordinal dt.year dt.month dt.day - toordinal 1900 1 1) +
    (3600 * (dt.hour : ℤ) + 60 * (dt.minute : ℤ) + (dt.second : ℤ))

/-- Numeric value of a decimal digit character. -/
def dval (c : Char) : ℕ := c.toNat - 48

/-- CPython `datetime.strptime(w, '%Y%m%dT%H%M%S')` on a 15-character token,
returning `none` where Python raises `ValueError`.

In CPython's `_strptime`, `%Y` matches exactly four digits and each of
`%m`, `%d`, `%H`, `%M`, `%S` matches one or two digits; together with the
literal `'T'` a 15-character input can therefore only match in the aligned
form `DDDDDDDD'T'DDDDDD` with every field two digits wide.  The regular
expressions bound `%m` to 01–12, `%d` to 01–31, `%H` to 00–23, `%M` to
00–59 and `%S` to 00–61, and the `datetime` constructor then requires
`1 ≤ year`, `day ≤ days_in_month` and `second ≤ 59`.  The callers in this
module only ever pass 15-character tokens (the `[0-9T]{15}` find in
`seconds` and the 15-character `start` capture of the product pattern). -/
def strptime (w : List Char) : Option DateTime :=
  match w with
  | [y1, y2, y3, y4, mo1, mo2, d1, d2, sep, h1, h2, mi1, mi2, s1, s2] =>
    if y1.isDigit ∧ y2.isDigit ∧ y3.isDigit ∧ y4.isDigit ∧
       mo1.isDigit ∧ mo2.isDigit ∧ d1.isDigit ∧ d2.isDigit ∧ sep = 'T' ∧
       h1.isDigit ∧ h2.isDigit ∧ mi1.isDigit ∧ mi2.isDigit ∧
       s1.isDigit ∧ s2.isDigit then
      let y := 1000 * dval y1 + 100 * dval y2 + 10 * dval y3 + dval y4
      let mo := 10 * dval mo1 + dval mo2
      let d := 10 * dval d1 + dval d2
      let h := 10 * dval h1 + dval h2
      let mi := 10 * dval mi1 + dval mi2
      let s := 10 * dval s1 + dval s2
      if 1 ≤ y ∧ 1 ≤ mo ∧ mo ≤ 12 ∧ 1 ≤ d ∧ d ≤ daysInMonth y mo ∧
         h ≤ 23 ∧ mi ≤ 59 ∧ s ≤ 59 then
        some ⟨y, mo, d, h, mi, s⟩
      else none
    else none
  | _ => none

/-! ## `seconds` -/

/-- Character class of the regular expression `[0-9T]`. -/
def isTok (c : Char) : Bool := c.isDigit || c = 'T'

/-- First (leftmost) match of `re.findall('[0-9T]{15}', fn)`: the 15-character
window at the least starting index all of whose characters are digits or `'T'`;
`none` when no such window exists (then `[0]` in the source raises
`IndexError`). -/
def firstToken : List Char → Option (List Char)
  | [] => none
  | c :: cs =>
    if ((c :: cs).take 15).length = 15 ∧ ((c :: cs).take 15).all isTok then
      some ((c :: cs).take 15)
    else firstToken cs

/-- The two failure modes of `seconds`: `IndexError` from `[0]` on an empty
`findall` result, and `ValueError` from `strptime`. -/
inductive SecErr
  | noMatch
  | parseFail
deriving DecidableEq

/-- `seconds(filename)` from `ancillary.py`:
`datetime.strptime(re.findall('[0-9T]{15}', filename)[0], '%Y%m%dT%H%M%S')
 - datetime(1900, 1, 1)`, returned via `total_seconds()`. -/
def seconds (fn : List Char) : Except SecErr ℤ :=
  match firstToken fn with
  | none => .error .noMatch
  | some w =>
    match strptime w with
    | none => .error .parseFail
    | some dt => .ok (epochSeconds dt)

/-! Declarative characterisations used to state the claims about `seconds`. -/

/-- The 15-character window of `fn` starting at `i` exists and consists of
digits and `'T'` only. -/
def windowTok (fn : List Char) (i : ℕ) : Bool :=
  ((fn.drop i).take 15).length = 15 && ((fn.drop i).take 15).all isTok

/-- `w` is the leftmost 15-character digits-and-`'T'` window of `fn`,
located at index `i`. -/
def LeftmostTokAt (fn : List Char) (i : ℕ) (w : List Char) : Prop :=
  w = (fn.drop i).take 15 ∧ windowTok fn i = true ∧
    ∀ j, j < i → windowTok fn j = false

/-- The date-time shape as the specification words it: 8 digits, one
separator character, 6 digits (15 characters in all).  The separator is left
unconstrained, which only makes the shape more permissive. -/
def specShape (w : List Char) : Bool :=
  w.length = 15 && (w.take 8).all Char.isDigit && (w.drop 9).all Char.isDigit

/-! ## `groupbyTime`

The items are of an arbitrary type `α`; the time values returned by the
caller-supplied extraction function live in a linearly ordered additive group
`T` (Python's floats, here taken exactly). -/

/-- An element of the list returned by `groupbyTime`: the comprehension
`[x[0] if len(x) == 1 else x for x in groups]` returns a bare item for a
one-member group and a list for a larger group. -/
inductive GItem (α : Type u)
  | single (a : α)
  | multi (g : List α)
deriving DecidableEq

/-- The member list of a result entry (a singleton entry stands for the
one-element group it came from). -/
def GItem.toL {α : Type u} : GItem α → List α
  | .single a => [a]
  | .multi g => g

/-- `x[0] if len(x) == 1 else x` applied to one group. -/
def wrap {α : Type u} (g : List α) : GItem α :=
  match g with
  | [x] => GItem.single x
  | _ => GItem.multi g

/-- Python's `sorted(images, key=function)`: a stable sort by the extracted
time value.  Stable sorts with the same comparison agree on all inputs, so
insertion sort represents `sorted` exactly. -/
def sortT {α : Type u} {T : Type v} [LinearOrderedAddCommGroup T]
    (f : α → T) (l : List α) : List α :=
  List.insertionSort (fun a b => f a ≤ f b) l

/-- The loop `for i in range(1, len(srcfiles))` of `groupbyTime`.  The Python
state is the list `groups` whose last entry is the mutable current group
`group`; here `done` holds the finished groups and the current group is
`curInit ++ [curLast]`, so that `group[-1]` is `curLast`.  An item is appended
to the current group exactly when
`0 < abs(function(item) - function(group[-1])) <= time`. -/
def groupLoop {α : Type u} {T : Type v} [LinearOrderedAddCommGroup T]
    (f : α → T) (t : T) :
    List (List α) → List α → α → List α → List (List α)
  | done, curInit, curLast, [] => done ++ [curInit ++ [curLast]]
  | done, curInit, curLast, item :: rest =>
    if 0 < |f item - f curLast| ∧ |f item - f curLast| ≤ t then
      groupLoop f t done (curInit ++ [curLast]) item rest
    else
      groupLoop f t (done ++ [curInit ++ [curLast]]) [] item rest

/-- `groupbyTime(images, function, time)` from `ancillary.py`.  The source
starts with `groups = [[srcfiles[0]]]`, which raises `IndexError` on an empty
(sorted) input; that failure is modelled by `none`. -/
def groupbyTime {α : Type u} {T : Type v} [LinearOrderedAddCommGroup T]
    (f : α → T) (t : T) (images : List α) : Option (List (GItem α)) :=
  match sortT f images with
  | [] => none
  | x :: xs => some ((groupLoop f t [] [] x xs).map wrap)

/-- The grouping rule as worded in the specification, as a plain recursion on
the sorted item list: the next item is appended to the current group exactly
when the absolute difference of its time value to the one of the last item
added is strictly positive and at most the threshold, and otherwise starts a
new group.  (The last item added to the current group is always the previous
item of the scan, so the comparison is with the predecessor.) -/
def groupsSpec {α : Type u} {T : Type v} [LinearOrderedAddCommGroup T]
    (f : α → T) (t : T) : α → List α → List (List α)
  | x, [] => [[x]]
  | x, y :: ys =>
    if 0 < |f y - f x| ∧ |f y - f x| ≤ t then
      match groupsSpec f t y ys with
      | [] => [[x]]
      | g :: gs => (x :: g) :: gs
    else
      [x] :: groupsSpec f t y ys

/-- Concatenation of the result groups, a singleton entry counting as a
one-element group. -/
def joinG {α : Type u} (gs : List (GItem α)) : List α :=
  (gs.map GItem.toL).flatten

/-- Prepends `ci` to the first group of a group list (helper relating the
accumulator form `groupLoop` to the plain recursion `groupsSpec`). -/
def prependHead {α : Type u} (ci : List α) : List (List α) → List (List α)
  | [] => [ci]
  | g :: gs => (ci ++ g) :: gs

/-! ## `parse_datasetname`

`product_pattern` is imported from `pyroSAR._dev_config`, which is not among
the sources; the specification treats it as an opaque external configuration
value with the named captures sensor, acquisition_mode, orbit, start,
polarization, proc_steps, extensions.  `parse_datasetname` and `find_datasets`
are therefore parametrised by the match function `pat` of that pattern
(`re.match(re.compile(product_pattern), name)`), and a concrete `productMatch`
modelled from the specification is supplied for them below. -/

/-- The `groupdict()` of a successful `product_pattern` match: one string per
named capture (an unmatched optional part captures the empty string). -/
structure RawCaptures where
  sensor : List Char
  acquisition_mode : List Char
  orbit : List Char
  start : List Char
  extensions : List Char
  polarization : List Char
  proc_steps : List Char
deriving DecidableEq

/-- The `start` entry of the metadata dictionary: the raw capture, or the
`datetime` it parses to when `parse_date=True`. -/
inductive StartVal
  | raw (s : List Char)
  | parsed (dt : DateTime)
deriving DecidableEq

/-- The metadata dictionary returned by `parse_datasetname` after
post-processing. -/
structure Metadata where
  sensor : List Char
  acquisition_mode : List Char
  orbit : List Char
  start : StartVal
  extensions : Option (List Char)
  polarization : List Char
  proc_steps : Option (List (List Char))
deriving DecidableEq

/-- `parse_datasetname(name, parse_date)` from `ancillary.py`, parametrised by
the product-pattern matcher `pat`.  `Except.ok none` is the plain `return`
taken when the pattern does not match; `Except.error ()` is the `ValueError`
that `datetime.strptime` raises inside the `parse_date` branch. -/
def parse_datasetname (pat : List Char → Option RawCaptures)
    (name : List Char) (parse_date : Bool) : Except Unit (Option Metadata) :=
  match pat name with
  | none => .ok none
  | some out =>
    let ext : Option (List Char) :=
      if out.extensions = [] then none else some out.extensions
    let steps : Option (List (List Char)) :=
      if 0 < out.proc_steps.length then some (out.proc_steps.splitOn '_') else none
    if parse_date then
      match strptime out.start with
      | none => .error ()
      | some dt =>
        .ok (some ⟨out.sensor, out.acquisition_mode, out.orbit, StartVal.parsed dt,
          ext, out.polarization, steps⟩)
    else
      .ok (some ⟨out.sensor, out.acquisition_mode, out.orbit, StartVal.raw out.start,
        ext, out.polarization, steps⟩)

/-- Drops the leading run of underscores. -/
def dropUnderscores : List Char → List Char
  | '_' :: rest => dropUnderscores rest
  | l => l

/-- Polarization letters. -/
def isPolChar (c : Char) : Bool := c = 'H' || c = 'V'

/-- The fixed date-time token shape `[0-9]{8}T[0-9]{6}`. -/
def dateShape (w : List Char) : Bool :=
  w.length = 15 && (w.take 8).all Char.isDigit &&
    (w.drop 8).take 1 = ['T'] && (w.drop 9).all Char.isDigit

/-- Modelled from the spec: the externally defined `product_pattern` of
`pyroSAR._dev_config` (not among the sources).  The specification fixes only
its named captures and the example decomposition of
`S1A__IW___A_20150309T173017_VV_grd_mli_geo_norm_db.tif` into
sensor `S1A`, acquisition_mode `IW`, orbit `A`, start `20150309T173017`,
polarization `VV`, proc_steps `grd_mli_geo_norm_db` (split on `_` later) and
an empty extensions capture.  The grammar used here: sensor, one or more
underscores, acquisition mode, one or more underscores, orbit (`A` or `D`),
one underscore, the 15-character start token, an optional extensions segment
(empty in this model), one underscore, a two-letter polarization over
`{H,V}`, then underscore-separated processing steps up to the trailing
file suffix introduced by a dot. -/
def productMatch (name : List Char) : Option RawCaptures :=
  let sensor := name.takeWhile (fun c => c ≠ '_')
  let r1 := name.dropWhile (fun c => c ≠ '_')
  if sensor = [] ∨ r1 = [] then none else
  let r2 := dropUnderscores r1
  let mode := r2.takeWhile (fun c => c ≠ '_')
  let r3 := r2.dropWhile (fun c => c ≠ '_')
  if mode = [] ∨ r3 = [] then none else
  let r4 := dropUnderscores r3
  match r4 with
  | orb :: '_' :: r5 =>
    if orb = 'A' ∨ orb = 'D' then
      let start := r5.take 15
      let r6 := r5.drop 15
      if dateShape start then
        match r6 with
        | '_' :: p1 :: p2 :: r7 =>
          if isPolChar p1 ∧ isPolChar p2 then
            let steps :=
              match r7 with
              | '_' :: r8 => r8.takeWhile (fun c => c ≠ '.')
              | _ => []
            some ⟨sensor, mode, [orb], start, [], [p1, p2], steps⟩
          else none
        | _ => none
      else none
    else none
  | _ => none

/-! ## `find_datasets` -/

/-- A Python value stored in the metadata dictionary or supplied as a
constraint: `None`, a string, a list of strings, or a parsed datetime. -/
inductive PyVal
  | pnone
  | str (s : List Char)
  | strs (l : List (List Char))
  | pdt (dt : DateTime)
deriving DecidableEq

/-- A keyword-constraint value of `find_datasets`: a tuple means membership,
anything else exact equality. -/
inductive Constraint
  | single (v : PyVal)
  | tup (vs : List PyVal)
deriving DecidableEq

/-- `meta[key]` on the parse result: the seven recognised keys map to their
values, anything else raises `KeyError` (`none` here). -/
def metaGet (m : Metadata) (key : List Char) : Option PyVal :=
  if key = "sensor".toList then some (.str m.sensor)
  else if key = "acquisition_mode".toList then some (.str m.acquisition_mode)
  else if key = "orbit".toList then some (.str m.orbit)
  else if key = "start".toList then
    some (match m.start with
      | .raw s => .str s
      | .parsed dt => .pdt dt)
  else if key = "extensions".toList then
    some (match m.extensions with
      | none => .pnone
      | some s => .str s)
  else if key = "polarization".toList then some (.str m.polarization)
  else if key = "proc_steps".toList then
    some (match m.proc_steps with
      | none => .pnone
      | some l => .strs l)
  else none

/-- Membership in the recognised key set. -/
def recognizedKey (key : List Char) : Bool :=
  key = "sensor".toList || key = "acquisition_mode".toList ||
    key = "orbit".toList || key = "start".toList ||
    key = "extensions".toList || key = "polarization".toList ||
    key = "proc_steps".toList

/-- One constraint test of the loop body: `meta[key] in val` for a tuple and
`meta[key] == val` otherwise. -/
def constraintTest (pv : PyVal) (c : Constraint) : Bool :=
  match c with
  | .single v => pv = v
  | .tup vs => pv ∈ vs

/-- The failure modes of `find_datasets`: `KeyError` from `meta[key]`, and
the degenerate `TypeError` Python would raise if a finder-returned file did
not parse (unreachable, since the finder pre-filters by the same pattern). -/
inductive FDErr
  | keyError
  | typeError
deriving DecidableEq

/-- The inner loop `for key, val in kwargs.items(): match = ...` of
`find_datasets`.  Python rebinds `match` on every iteration (it does not
conjoin), so the accumulator is deliberately ignored; a `KeyError` aborts
the call. -/
def constraintsLoop (m : Metadata) (kwargs : List (List Char × Constraint)) :
    Except FDErr Bool :=
  kwargs.foldlM
    (fun _mt kv =>
      match metaGet m kv.1 with
      | none => .error .keyError
      | some pv => .ok (constraintTest pv kv.2))
    true

/-- The body of the `for file in files` loop of `find_datasets`: parse the
file, run the constraint loop, and append the file to the selection when the
final `match` flag is true. -/
def fdStep (pat : List Char → Option RawCaptures)
    (kwargs : List (List Char × Constraint))
    (selection : List (List Char)) (file : List Char) :
    Except FDErr (List (List Char)) :=
  match parse_datasetname pat file false with
  | .ok (some m) => do
    let mt ← constraintsLoop m kwargs
    pure (if mt then selection ++ [file] else selection)
  | _ => .error .typeError

/-- `find_datasets(directory, **kwargs)` from `ancillary.py`, parametrised by
the pattern matcher `pat`.  The external collaborator
`finder(directory, [product_pattern], regex=True)` is modelled by its returned
filename list `allfiles` (in the finder's native order) restricted to the
files that structurally match the pattern. -/
def find_datasets (pat : List Char → Option RawCaptures)
    (allfiles : List (List Char)) (kwargs : List (List Char × Constraint)) :
    Except FDErr (List (List Char)) :=
  (allfiles.filter (fun f => (pat f).isSome)).foldlM (fdStep pat kwargs) []

/-- A concrete capture record with a non-empty extensions capture, used to
instantiate the post-processing theorem. -/
def rcEx : RawCaptures :=
  ⟨"S1A".toList, "IW".toList, "A".toList, "20150309T173017".toList,
    "_abc".toList, "VV".toList, "grd_db".toList⟩

/-- A one-filename pattern matcher returning `rcEx`. -/
def patEx (n : List Char) : Option RawCaptures :=
  if n = "f.tif".toList then some rcEx else none

/-! ## Theorems -/

/-- C9: on the empty input list `groupbyTime` fails (the source evaluates
`srcfiles[0]` on the empty sorted list, an `IndexError`, modelled by `none`)
instead of returning a result; non-empty input is a precondition. -/
theorem groupbyTime_empty_input {α : Type u} {T : Type v}
    [LinearOrderedAddCommGroup T] (f : α → T) (t : T) :
    groupbyTime f t ([] : List α) = none := rfl

/-- C7: whenever the product pattern does not match the filename,
`parse_datasetname` returns the absent result (`return` with no value) and
raises no exception, for either value of `parse_date`. -/
theorem parse_datasetname_absent (pat : List Char → Option RawCaptures)
    (name : List Char) (pd : Bool) (h : pat name = none) :
    parse_datasetname pat name pd = .ok none := by
  unfold parse_datasetname
  rw [h]

theorem parse_datasetname_absent_witness :
    productMatch "random.txt".toList = none ∧
      parse_datasetname productMatch "random.txt".toList true = .ok none :=
  ⟨by decide, parse_datasetname_absent productMatch "random.txt".toList true (by decide)⟩

/-- C8: on a pattern match, `parse_datasetname` post-processes the captures:
an empty extensions capture becomes the absent value, a non-empty proc_steps
capture is split on underscores (an empty one becomes the absent value), and
the start capture is converted by `strptime` exactly when `parse_date` is
set, and kept as the raw string otherwise. -/
theorem parse_datasetname_postprocess (pat : List Char → Option RawCaptures)
    (name : List Char) (out : RawCaptures) (h : pat name = some out) :
    parse_datasetname pat name false =
      .ok (some ⟨out.sensor, out.acquisition_mode, out.orbit, StartVal.raw out.start,
        if out.extensions = [] then none else some out.extensions,
        out.polarization,
        if out.proc_steps = [] then none else some (out.proc_steps.splitOn '_')⟩) ∧
    ∀ dt, strptime out.start = some dt →
      parse_datasetname pat name true =
        .ok (some ⟨out.sensor, out.acquisition_mode, out.orbit, StartVal.parsed dt,
          if out.extensions = [] then none else some out.extensions,
          out.polarization,
          if out.proc_steps = [] then none else some (out.proc_steps.splitOn '_')⟩) := by
  have hsteps :
      (if 0 < out.proc_steps.length then some (out.proc_steps.splitOn '_') else none) =
        (if out.proc_steps = [] then none else some (out.proc_steps.splitOn '_')) := by
    by_cases hp : out.proc_steps = []
    · simp [hp]
    · simp [hp, List.length_pos.mpr hp]
  constructor
  · unfold parse_datasetname
    rw [h]
    simp only [hsteps, if_neg Bool.false_ne_true]
  · intro dt hdt
    unfold parse_datasetname
    rw [h]
    simp [hsteps, hdt]

theorem parse_datasetname_postprocess_witness :
    patEx "f.tif".toList = some rcEx ∧
      strptime rcEx.start = some ⟨2015, 3, 9, 17, 30, 17⟩ ∧
      parse_datasetname patEx "f.tif".toList false =
        .ok (some ⟨rcEx.sensor, rcEx.acquisition_mode, rcEx.orbit, StartVal.raw rcEx.start,
          if rcEx.extensions = [] then none else some rcEx.extensions,
          rcEx.polarization,
          if rcEx.proc_steps = [] then none else some (rcEx.proc_steps.splitOn '_')⟩) ∧
      parse_datasetname patEx "f.tif".toList true =
        .ok (some ⟨rcEx.sensor, rcEx.acquisition_mode, rcEx.orbit,
          StartVal.parsed ⟨2015, 3, 9, 17, 30, 17⟩,
          if rcEx.extensions = [] then none else some rcEx.extensions,
          rcEx.polarization,
          if rcEx.proc_steps = [] then none else some (rcEx.proc_steps.splitOn '_')⟩) :=
  ⟨by decide, by decide,
    (parse_datasetname_postprocess patEx "f.tif".toList rcEx (by decide)).1,
    (parse_datasetname_postprocess patEx "f.tif".toList rcEx (by decide)).2
      ⟨2015, 3, 9, 17, 30, 17⟩ (by decide)⟩

/-- C1: refuted by the code — the loop body `match = ...` rebinds the flag on
every constraint instead of conjoining, so only the **last** keyword
constraint decides the selection.  Here a file whose parsed sensor `XX1` is
not in the constraint tuple `('S1A', 'S1B')` is nevertheless returned,
because the later `polarization='VV'` constraint matches.  The docstring
("filtered by metadata attributes", with the two-constraint example) and the
specification both state that all constraints must hold, so this is a slip
in the code. -/
theorem find_datasets_last_constraint_only :
    find_datasets productMatch ["XX1__IW___A_20150309T173017_VV_grd.tif".toList]
      [("sensor".toList, Constraint.tup [PyVal.str "S1A".toList, PyVal.str "S1B".toList]),
       ("polarization".toList, Constraint.single (PyVal.str "VV".toList))] =
      .ok ["XX1__IW___A_20150309T173017_VV_grd.tif".toList] ∧
    parse_datasetname productMatch "XX1__IW___A_20150309T173017_VV_grd.tif".toList false =
      .ok (some ⟨"XX1".toList, "IW".toList, "A".toList,
        StartVal.raw "20150309T173017".toList, none, "VV".toList, some ["grd".toList]⟩) ∧
    constraintTest (PyVal.str "XX1".toList)
      (Constraint.tup [PyVal.str "S1A".toList, PyVal.str "S1B".toList]) = false := by
  refine ⟨by decide, by decide, by decide⟩

/-- C2 counterexample: with an unrecognised constraint key but no
structurally matching file in the directory, `find_datasets` does not fail —
the constraint loop never runs and the empty selection is returned, contrary
to the claim that such a call always fails with a key error. -/
theorem find_datasets_unknown_key_cex :
    recognizedKey "bogus".toList = false ∧
    find_datasets productMatch []
      [("bogus".toList, Constraint.single (PyVal.str "x".toList))] = .ok [] := by
  refine ⟨by decide, by decide⟩

/-! Helper lemmas on `firstToken` and token windows. -/

theorem windowTok_cons (c : Char) (cs : List Char) (i : ℕ) :
    windowTok (c :: cs) (i + 1) = windowTok cs i := rfl

theorem windowTok_zero_yes (fn : List Char)
    (h : (fn.take 15).length = 15 ∧ (fn.take 15).all isTok) :
    windowTok fn 0 = true := by
  simp only [windowTok, List.drop_zero, Bool.and_eq_true, decide_eq_true_iff]
  exact ⟨h.1, h.2⟩

theorem windowTok_zero_no (fn : List Char)
    (h : ¬ ((fn.take 15).length = 15 ∧ (fn.take 15).all isTok)) :
    windowTok fn 0 = false := by
  rw [Bool.eq_false_iff]
  intro hc
  simp only [windowTok, List.drop_zero, Bool.and_eq_true, decide_eq_true_iff] at hc
  exact h hc

theorem firstToken_none_iff : ∀ fn : List Char,
    firstToken fn = none ↔ ∀ i, windowTok fn i = false := by
  intro fn
  induction fn with
  | nil =>
    simp [firstToken, windowTok]
  | cons c cs ih =>
    unfold firstToken
    by_cases hP : (((c :: cs).take 15).length = 15 ∧ ((c :: cs).take 15).all isTok)
    · simp only [if_pos hP]
      constructor
      · intro h; cases h
      · intro h
        have h0 := h 0
        rw [windowTok_zero_yes _ hP] at h0
        cases h0
    · simp only [if_neg hP]
      rw [ih]
      constructor
      · intro h i
        cases i with
        | zero => exact windowTok_zero_no _ hP
        | succ j => rw [windowTok_cons]; exact h j
      · intro h j
        have := h (j + 1)
        rwa [windowTok_cons] at this

theorem firstToken_of_leftmost : ∀ (fn : List Char) (i : ℕ) (w : List Char),
    LeftmostTokAt fn i w → firstToken fn = some w := by
  intro fn
  induction fn with
  | nil =>
    intro i w h
    have := h.2.1
    simp [windowTok] at this
  | cons c cs ih =>
    intro i w h
    obtain ⟨hw, hyes, hmin⟩ := h
    cases i with
    | zero =>
      have hP : ((c :: cs).take 15).length = 15 ∧ ((c :: cs).take 15).all isTok := by
        have := hyes
        simp only [windowTok, List.drop_zero, Bool.and_eq_true, decide_eq_true_iff] at this
        exact this
      unfold firstToken
      rw [if_pos hP]
      rw [hw]
      simp
    | succ j =>
      have h0 : windowTok (c :: cs) 0 = false := hmin 0 (Nat.succ_pos j)
      have hP : ¬ (((c :: cs).take 15).length = 15 ∧ ((c :: cs).take 15).all isTok) := by
        intro hc
        rw [windowTok_zero_yes _ hc] at h0
        cases h0
      unfold firstToken
      rw [if_neg hP]
      refine ih j w ⟨hw, ?_, ?_⟩
      · rw [← windowTok_cons c]; exact hyes
      · intro k hk
        rw [← windowTok_cons c]
        exact hmin (k + 1) (Nat.succ_lt_succ hk)

theorem exists_window_iff_substring (fn : List Char) :
    (∃ i, windowTok fn i = true) ↔
      ∃ w s t, s ++ w ++ t = fn ∧ w.length = 15 ∧ w.all isTok = true := by
  constructor
  · rintro ⟨i, hi⟩
    simp only [windowTok, Bool.and_eq_true, decide_eq_true_iff] at hi
    refine ⟨(fn.drop i).take 15, fn.take i, (fn.drop i).drop 15, ?_, hi.1, hi.2⟩
    rw [List.append_assoc, List.take_append_drop, List.take_append_drop]
  · rintro ⟨w, s, t, heq, hlen, hall⟩
    refine ⟨s.length, ?_⟩
    have hdrop : fn.drop s.length = w ++ t := by
      rw [← heq, List.append_assoc, List.drop_left]
    have htake : (fn.drop s.length).take 15 = w := by
      rw [hdrop, ← hlen, List.take_left]
    simp only [windowTok, htake, Bool.and_eq_true, decide_eq_true_iff]
    exact ⟨hlen, hall⟩

theorem seconds_eq_noMatch_iff (fn : List Char) :
    seconds fn = .error .noMatch ↔ firstToken fn = none := by
  cases h : firstToken fn with
  | none => simp [seconds, h]
  | some w =>
    simp only [seconds, h]
    cases hs : strptime w <;> simp

/-- C3 counterexample: the filename consisting of fifteen `'T'` characters
contains no substring of the shape "8 digits, a separator character,
6 digits" (with the separator left arbitrary, which only widens the shape),
yet `seconds` does not fail with the "no match" error — the regular
expression `[0-9T]{15}` matches the all-`'T'` run and `strptime` then raises
the parse error.  The claim's "exactly when" is therefore false on the code. -/
theorem seconds_error_taxonomy_cex :
    (¬ ∃ w s t, s ++ w ++ t = List.replicate 15 'T' ∧ specShape w = true) ∧
    seconds (List.replicate 15 'T') = .error .parseFail := by
  constructor
  · rintro ⟨w, s, t, heq, hs⟩
    simp only [specShape, Bool.and_eq_true, decide_eq_true_iff] at hs
    obtain ⟨⟨hlen, hdig⟩, -⟩ := hs
    cases w with
    | nil => simp at hlen
    | cons c w' =>
      have hc8 : c ∈ (c :: w').take 8 := by
        simp [List.take_succ_cons]
      have hcd : c.isDigit = true := by
        have := List.all_eq_true.mp hdig c hc8
        simpa using this
      have hcT : c = 'T' := by
        refine List.eq_of_mem_replicate (n := 15) (a := 'T') ?_
        rw [← heq]
        simp
      rw [hcT] at hcd
      cases hcd
  · decide

/-- C3 (amended): `seconds` fails with the "no match" error (`IndexError`)
exactly when the filename contains no 15-character substring consisting of
digits and `'T'` — the shape actually tested by the regular expression
`[0-9T]{15}`, wider than the spec's "8 digits, separator, 6 digits"; and when
such a substring exists but the leftmost one is not a valid calendar
date-time, it fails with the parse error (`ValueError`) instead. -/
theorem seconds_error_taxonomy (fn : List Char) :
    (seconds fn = .error .noMatch ↔
      ¬ ∃ w s t, s ++ w ++ t = fn ∧ w.length = 15 ∧ w.all isTok = true) ∧
    (∀ i w, LeftmostTokAt fn i w → strptime w = none →
      seconds fn = .error .parseFail) := by
  constructor
  · rw [seconds_eq_noMatch_iff, ← exists_window_iff_substring, firstToken_none_iff]
    constructor
    · intro h
      rintro ⟨i, hi⟩
      rw [h i] at hi
      cases hi
    · intro h i
      rw [Bool.eq_false_iff]
      intro hc
      exact h ⟨i, hc⟩
  · intro i w hl hp
    simp [seconds, firstToken_of_leftmost fn i w hl, hp]

theorem seconds_error_taxonomy_witness :
    ((seconds (List.replicate 15 'T') = .error .noMatch ↔
      ¬ ∃ w s t, s ++ w ++ t = List.replicate 15 'T' ∧ w.length = 15 ∧
        w.all isTok = true)) ∧
    seconds (List.replicate 15 'T') = .error .parseFail :=
  ⟨(seconds_error_taxonomy (List.replicate 15 'T')).1,
   (seconds_error_taxonomy (List.replicate 15 'T')).2 0 (List.replicate 15 'T')
     ⟨by decide, by decide, by decide⟩ (by decide)⟩

/-- C6: whenever the leftmost `[0-9T]{15}` token of the filename is a valid
calendar date-time, `seconds` returns the elapsed seconds from the epoch
1900-01-01T00:00:00 to that date-time: 86400 seconds per day of proleptic
Gregorian ordinal difference plus the time of day. -/
theorem seconds_epoch_offset (fn : List Char) (i : ℕ) (w : List Char)
    (h : LeftmostTokAt fn i w) (dt : DateTime) (hp : strptime w = some dt) :
    seconds fn =
      .ok (86400 * (toordinal dt.year dt.month dt.day - toordinal 1900 1 1) +
        (3600 * (dt.hour : ℤ) + 60 * (dt.minute : ℤ) + (dt.second : ℤ))) := by
  simp [seconds, firstToken_of_leftmost fn i w h, hp, epochSeconds]

theorem seconds_epoch_offset_witness :
    LeftmostTokAt "S1A__IW___A_20150309T173017_VV_grd_mli_geo_norm_db.tif".toList 12
      "20150309T173017".toList ∧
    strptime "20150309T173017".toList = some ⟨2015, 3, 9, 17, 30, 17⟩ ∧
    seconds "S1A__IW___A_20150309T173017_VV_grd_mli_geo_norm_db.tif".toList =
      .ok 3634911017 := by
  refine ⟨⟨by decide, by decide, by decide⟩, by decide, ?_⟩
  exact (seconds_epoch_offset
    "S1A__IW___A_20150309T173017_VV_grd_mli_geo_norm_db.tif".toList 12
    "20150309T173017".toList ⟨by decide, by decide, by decide⟩
    ⟨2015, 3, 9, 17, 30, 17⟩ (by decide)).trans (by decide)

/-! Helper lemmas on `groupLoop`, `groupsSpec` and `wrap`. -/

theorem toL_wrap {α : Type u} (g : List α) : (wrap g).toL = g := by
  match g with
  | [] => rfl
  | [x] => rfl
  | x :: y :: r => rfl

theorem groupLoop_flatten {α : Type u} {T : Type v} [LinearOrderedAddCommGroup T]
    (f : α → T) (t : T) : ∀ (rest : List α) (done : List (List α)) (ci : List α) (last : α),
    (groupLoop f t done ci last rest).flatten = done.flatten ++ (ci ++ last :: rest) := by
  intro rest
  induction rest with
  | nil =>
    intro done ci last
    simp [groupLoop]
  | cons item r ih =>
    intro done ci last
    unfold groupLoop
    by_cases hc : (0 < |f item - f last| ∧ |f item - f last| ≤ t)
    · rw [if_pos hc, ih]
      simp
    · rw [if_neg hc, ih]
      simp

theorem groupsSpec_head {α : Type u} {T : Type v} [LinearOrderedAddCommGroup T]
    (f : α → T) (t : T) : ∀ (xs : List α) (x : α),
    ∃ r gs, groupsSpec f t x xs = (x :: r) :: gs := by
  intro xs
  induction xs with
  | nil =>
    intro x
    exact ⟨[], [], rfl⟩
  | cons y ys ih =>
    intro x
    unfold groupsSpec
    by_cases hc : (0 < |f y - f x| ∧ |f y - f x| ≤ t)
    · rw [if_pos hc]
      obtain ⟨r, gs, hg⟩ := ih y
      rw [hg]
      exact ⟨y :: r, gs, rfl⟩
    · rw [if_neg hc]
      exact ⟨[], groupsSpec f t y ys, rfl⟩

theorem groupLoop_eq_spec {α : Type u} {T : Type v} [LinearOrderedAddCommGroup T]
    (f : α → T) (t : T) : ∀ (rest : List α) (done : List (List α)) (ci : List α) (last : α),
    groupLoop f t done ci last rest = done ++ prependHead ci (groupsSpec f t last rest) := by
  intro rest
  induction rest with
  | nil =>
    intro done ci last
    simp [groupLoop, groupsSpec, prependHead]
  | cons item r ih =>
    intro done ci last
    unfold groupLoop groupsSpec
    obtain ⟨r0, gs0, hg⟩ := groupsSpec_head f t r item
    by_cases hc : (0 < |f item - f last| ∧ |f item - f last| ≤ t)
    · rw [if_pos hc, if_pos hc, ih, hg]
      simp [prependHead, List.append_assoc]
    · rw [if_neg hc, if_neg hc, ih, hg]
      simp [prependHead, List.append_assoc]

theorem groupsSpec_chain {α : Type u} {T : Type v} [LinearOrderedAddCommGroup T]
    (f : α → T) (t : T) : ∀ (xs : List α) (x : α),
    List.Chain' (fun a b => f a ≤ f b) (x :: xs) →
    ∀ g ∈ groupsSpec f t x xs, List.Chain' (fun a b => f a < f b) g := by
  intro xs
  induction xs with
  | nil =>
    intro x _ g hg
    have hgx : g = [x] := by simpa [groupsSpec] using hg
    rw [hgx]
    exact List.chain'_singleton x
  | cons y ys ih =>
    intro x hch g hg
    rw [List.chain'_cons] at hch
    obtain ⟨hxy, hch'⟩ := hch
    unfold groupsSpec at hg
    by_cases hc : (0 < |f y - f x| ∧ |f y - f x| ≤ t)
    · rw [if_pos hc] at hg
      obtain ⟨r0, gs0, hgs⟩ := groupsSpec_head f t ys y
      rw [hgs] at hg
      rcases List.mem_cons.mp hg with hg1 | hg2
      · rw [hg1, List.chain'_cons]
        constructor
        · have hne : f y ≠ f x := by
            have h1 := hc.1
            rwa [abs_pos, sub_ne_zero] at h1
          exact lt_of_le_of_ne hxy hne.symm
        · exact ih y hch' (y :: r0) (by rw [hgs]; exact List.mem_cons_self _ _)
      · exact ih y hch' g (by rw [hgs]; exact List.mem_cons_of_mem _ hg2)
    · rw [if_neg hc] at hg
      rcases List.mem_cons.mp hg with hg1 | hg2
      · rw [hg1]
        exact List.chain'_singleton x
      · exact ih y hch' g hg2

/-- C10: for non-empty input (witnessed by the sorted list being a cons) the
groups returned by `groupbyTime` partition the input: concatenating them —
an unwrapped singleton counting as a one-element group — yields exactly the
input items sorted ascending by extracted time value, which is a permutation
of the input, so no item is dropped or duplicated. -/
theorem groupbyTime_partition {α : Type u} {T : Type v} [LinearOrderedAddCommGroup T]
    (f : α → T) (t : T) (l : List α) (x : α) (xs : List α)
    (h : sortT f l = x :: xs) :
    ∃ gs, groupbyTime f t l = some gs ∧ joinG gs = x :: xs ∧
      (x :: xs).Perm l ∧ List.Pairwise (fun a b => f a ≤ f b) (x :: xs) := by
  haveI : IsTotal α (fun a b => f a ≤ f b) := ⟨fun a b => le_total (f a) (f b)⟩
  haveI : IsTrans α (fun a b => f a ≤ f b) := ⟨fun a b c hab hbc => le_trans hab hbc⟩
  refine ⟨(groupLoop f t [] [] x xs).map wrap, ?_, ?_, ?_, ?_⟩
  · unfold groupbyTime
    rw [h]
  · unfold joinG
    rw [List.map_map]
    have hcomp : (GItem.toL ∘ wrap : List α → List α) = id := funext toL_wrap
    rw [hcomp, List.map_id, groupLoop_flatten]
    simp
  · rw [← h]
    unfold sortT
    exact List.perm_insertionSort _ l
  · rw [← h]
    unfold sortT
    exact List.sorted_insertionSort _ l

theorem groupbyTime_partition_witness :
    sortT (fun n : ℤ => n) [20, 0, 5] = 0 :: [5, 20] ∧
    ∃ gs, groupbyTime (fun n : ℤ => n) 10 [20, 0, 5] = some gs ∧
      joinG gs = 0 :: [5, 20] ∧ (0 :: [5, 20] : List ℤ).Perm [20, 0, 5] ∧
      List.Pairwise (fun a b : ℤ => a ≤ b) (0 :: [5, 20]) :=
  ⟨by decide, groupbyTime_partition (fun n : ℤ => n) 10 [20, 0, 5] 0 [5, 20] (by decide)⟩

/-- C5: on non-empty input `groupbyTime` equals the specification's scan of
the ascending-sorted items — append the next item to the current group
exactly when the absolute time difference to the last item added is strictly
positive and at most the threshold, else start a new group — with singleton
groups returned bare and larger groups as lists (`wrap`); and within any one
group all extracted time values are pairwise distinct, so two items with an
identical time value always land in separate groups. -/
theorem groupbyTime_scan_spec {α : Type u} {T : Type v} [LinearOrderedAddCommGroup T]
    (f : α → T) (t : T) (l : List α) (x : α) (xs : List α)
    (h : sortT f l = x :: xs) :
    groupbyTime f t l = some ((groupsSpec f t x xs).map wrap) ∧
    ∀ g ∈ groupsSpec f t x xs, List.Pairwise (fun a b => f a ≠ f b) g := by
  haveI : IsTotal α (fun a b => f a ≤ f b) := ⟨fun a b => le_total (f a) (f b)⟩
  haveI : IsTrans α (fun a b => f a ≤ f b) := ⟨fun a b c hab hbc => le_trans hab hbc⟩
  haveI : IsTrans α (fun a b => f a < f b) := ⟨fun a b c hab hbc => lt_trans hab hbc⟩
  constructor
  · unfold groupbyTime
    rw [h]
    obtain ⟨r, gs, hg⟩ := groupsSpec_head f t xs x
    show some ((groupLoop f t [] [] x xs).map wrap) = _
    rw [groupLoop_eq_spec, hg]
    rfl
  · have hsorted : List.Pairwise (fun a b => f a ≤ f b) (x :: xs) := by
      rw [← h]
      unfold sortT
      exact List.sorted_insertionSort _ l
    have hchain : List.Chain' (fun a b => f a ≤ f b) (x :: xs) :=
      List.chain'_iff_pairwise.mpr hsorted
    intro g hg
    have hplt : List.Pairwise (fun a b => f a < f b) g :=
      List.chain'_iff_pairwise.mp (groupsSpec_chain f t xs x hchain g hg)
    exact hplt.imp (fun hab => ne_of_lt hab)

theorem groupbyTime_scan_spec_witness :
    sortT (fun n : ℤ => n) [20, 0, 5] = 0 :: [5, 20] ∧
    (groupbyTime (fun n : ℤ => n) 10 [20, 0, 5] =
        some ((groupsSpec (fun n : ℤ => n) 10 0 [5, 20]).map wrap) ∧
      ∀ g ∈ groupsSpec (fun n : ℤ => n) 10 0 [5, 20],
        List.Pairwise (fun a b : ℤ => a ≠ b) g) :=
  ⟨by decide, groupbyTime_scan_spec (fun n : ℤ => n) 10 [20, 0, 5] 0 [5, 20] (by decide)⟩

/-- C4 counterexample: with two distinct items carrying the same extracted
time value, the two orders of the same two-element set give different
results — the stable sort preserves the input order of the tie and the items
end up as singleton groups in that order, so `[1, 2]` yields the groups in
the order `1, 2` and `[2, 1]` yields them in the order `2, 1`.  Grouping is
therefore not invariant under permutation of the input. -/
theorem groupbyTime_order_cex :
    ([2, 1] : List ℤ).Perm [1, 2] ∧
    groupbyTime (fun _ : ℤ => (0 : ℤ)) 1 [1, 2] ≠
      groupbyTime (fun _ : ℤ => (0 : ℤ)) 1 [2, 1] :=
  ⟨List.Perm.swap 1 2 [], by decide⟩

/-- Sorted lists that are permutations of each other and whose elements the
order relation separates (antisymmetry on members) are equal. -/
theorem perm_sorted_eq {α : Type u} {r : α → α → Prop} :
    ∀ {l₁ l₂ : List α}, l₁.Perm l₂ → l₁.Pairwise r → l₂.Pairwise r →
      (∀ a ∈ l₁, ∀ b ∈ l₁, r a b → r b a → a = b) → l₁ = l₂ := by
  intro l₁
  induction l₁ with
  | nil =>
    intro l₂ hp _ _ _
    exact hp.nil_eq
  | cons a l ih =>
    intro l₂ hp hs₁ hs₂ hanti
    cases l₂ with
    | nil => exact (List.cons_ne_nil a l hp.eq_nil).elim
    | cons b l₂' =>
      have hb₁ : b ∈ a :: l := (hp.symm.mem_iff).mp (List.mem_cons_self b l₂')
      have ha₂ : a ∈ b :: l₂' := (hp.mem_iff).mp (List.mem_cons_self a l)
      have hab : a = b := by
        rcases List.mem_cons.mp hb₁ with hba | hbl
        · exact hba.symm
        · rcases List.mem_cons.mp ha₂ with hab' | hal
          · exact hab'
          · have hrab : r a b := (List.pairwise_cons.mp hs₁).1 b hbl
            have hrba : r b a := (List.pairwise_cons.mp hs₂).1 a hal
            exact hanti a (List.mem_cons_self a l) b (List.mem_cons_of_mem a hbl) hrab hrba
      subst hab
      have heq : l = l₂' := ih hp.cons_inv hs₁.of_cons hs₂.of_cons
        (fun x hx y hy => hanti x (List.mem_cons_of_mem a hx) y (List.mem_cons_of_mem a hy))
      rw [heq]

/-- When the extracted time values are pairwise distinct on the input, the
sorted list is determined by the input's multiset alone. -/
theorem sortT_eq_of_perm {α : Type u} {T : Type v} [LinearOrderedAddCommGroup T]
    (f : α → T) (l₁ l₂ : List α) (hn : (l₁.map f).Nodup) (hp : l₁.Perm l₂) :
    sortT f l₁ = sortT f l₂ := by
  haveI : IsTotal α (fun a b => f a ≤ f b) := ⟨fun a b => le_total (f a) (f b)⟩
  haveI : IsTrans α (fun a b => f a ≤ f b) := ⟨fun a b c hab hbc => le_trans hab hbc⟩
  have hs₁ : (sortT f l₁).Pairwise (fun a b => f a ≤ f b) := by
    unfold sortT
    exact List.sorted_insertionSort _ l₁
  have hs₂ : (sortT f l₂).Pairwise (fun a b => f a ≤ f b) := by
    unfold sortT
    exact List.sorted_insertionSort _ l₂
  have hperm : (sortT f l₁).Perm (sortT f l₂) := by
    unfold sortT
    exact ((List.perm_insertionSort _ l₁).trans hp).trans
      (List.perm_insertionSort _ l₂).symm
  refine perm_sorted_eq hperm hs₁ hs₂ ?_
  intro a ha b hb hab hba
  have ha' : a ∈ l₁ := by
    unfold sortT at ha
    exact ((List.perm_insertionSort _ l₁).mem_iff).mp ha
  have hb' : b ∈ l₁ := by
    unfold sortT at hb
    exact ((List.perm_insertionSort _ l₁).mem_iff).mp hb
  exact List.inj_on_of_nodup_map hn ha' hb' (le_antisymm hab hba)

/-- C4 (amended): `groupbyTime` is invariant under permutation of its input
provided the extracted time values are pairwise distinct on the input (the
claim fails when two distinct items share a time value, see the
counterexample): any two orders of the same items produce identical
results. -/
theorem groupbyTime_order_invariant {α : Type u} {T : Type v}
    [LinearOrderedAddCommGroup T] (f : α → T) (t : T) (l₁ l₂ : List α)
    (hn : (l₁.map f).Nodup) (hp : l₁.Perm l₂) :
    groupbyTime f t l₁ = groupbyTime f t l₂ := by
  unfold groupbyTime
  rw [sortT_eq_of_perm f l₁ l₂ hn hp]

theorem groupbyTime_order_invariant_witness :
    (([2, 1] : List ℤ).map (fun n : ℤ => n)).Nodup ∧
    ([2, 1] : List ℤ).Perm [1, 2] ∧
    groupbyTime (fun n : ℤ => n) 5 [2, 1] = groupbyTime (fun n : ℤ => n) 5 [1, 2] :=
  ⟨by decide, List.Perm.swap 1 2 [],
    groupbyTime_order_invariant (fun n : ℤ => n) 5 [2, 1] [1, 2] (by decide)
      (List.Perm.swap 1 2 [])⟩

/-! Helper lemmas for the `KeyError` behaviour of `find_datasets`. -/

theorem metaGet_unrecognized (m : Metadata) (k : List Char)
    (h : recognizedKey k = false) : metaGet m k = none := by
  unfold recognizedKey at h
  simp only [Bool.or_eq_false_iff, decide_eq_false_iff_not] at h
  obtain ⟨⟨⟨⟨⟨⟨h1, h2⟩, h3⟩, h4⟩, h5⟩, h6⟩, h7⟩ := h
  unfold metaGet
  rw [if_neg h1, if_neg h2, if_neg h3, if_neg h4, if_neg h5, if_neg h6, if_neg h7]

theorem constraintsLoop_unknown_key (m : Metadata) :
    ∀ (kwargs : List (List Char × Constraint)) (b : Bool) (k : List Char) (c : Constraint),
      (k, c) ∈ kwargs → recognizedKey k = false →
      (kwargs.foldlM (fun _mt kv =>
        match metaGet m kv.1 with
        | none => Except.error FDErr.keyError
        | some pv => Except.ok (constraintTest pv kv.2)) b :
          Except FDErr Bool) = .error .keyError := by
  intro kwargs
  induction kwargs with
  | nil =>
    intro b k c hk _
    cases hk
  | cons kv rest ih =>
    intro b k c hk hu
    rw [List.foldlM_cons]
    rcases List.mem_cons.mp hk with heq | hmem
    · have hk1 : metaGet m kv.1 = none := by
        rw [← heq]
        exact metaGet_unrecognized m k hu
      rw [hk1]
      rfl
    · cases hmg : metaGet m kv.1 with
      | none => rfl
      | some pv => exact ih (constraintTest pv kv.2) k c hmem hu

theorem parse_of_match_isSome (pat : List Char → Option RawCaptures)
    (file : List Char) (h : (pat file).isSome = true) :
    ∃ m, parse_datasetname pat file false = .ok (some m) := by
  obtain ⟨out, hout⟩ := Option.isSome_iff_exists.mp h
  refine ⟨⟨out.sensor, out.acquisition_mode, out.orbit, StartVal.raw out.start,
    if out.extensions = [] then none else some out.extensions, out.polarization,
    if 0 < out.proc_steps.length then some (out.proc_steps.splitOn '_') else none⟩, ?_⟩
  unfold parse_datasetname
  rw [hout]
  rfl

theorem fdStep_keyError (pat : List Char → Option RawCaptures)
    (kwargs : List (List Char × Constraint)) (sel : List (List Char))
    (file : List Char) (m : Metadata)
    (h1 : parse_datasetname pat file false = .ok (some m))
    (h2 : constraintsLoop m kwargs = .error .keyError) :
    fdStep pat kwargs sel file = .error .keyError := by
  unfold fdStep
  rw [h1]
  show (constraintsLoop m kwargs >>= fun mt =>
    (pure (if mt then sel ++ [file] else sel) : Except FDErr (List (List Char)))) = _
  rw [h2]
  rfl

/-- C2 (amended): whenever some constraint key is not one of the seven
recognised metadata keys **and the directory holds at least one structurally
matching file**, `find_datasets` fails with the `KeyError` raised by
`meta[key]` on the first file processed; the unknown key is never silently
ignored.  (Without any matching file the constraint loop never runs and the
call returns the empty selection — see the counterexample.) -/
theorem find_datasets_unknown_key_fails (pat : List Char → Option RawCaptures)
    (allfiles : List (List Char)) (kwargs : List (List Char × Constraint))
    (k : List Char) (c : Constraint) (hk : (k, c) ∈ kwargs)
    (hu : recognizedKey k = false) (f0 : List Char) (hf0 : f0 ∈ allfiles)
    (hm : (pat f0).isSome = true) :
    find_datasets pat allfiles kwargs = .error .keyError := by
  unfold find_datasets
  have hne : allfiles.filter (fun f => (pat f).isSome) ≠ [] := by
    intro hnil
    have hmem : f0 ∈ allfiles.filter (fun f => (pat f).isSome) :=
      List.mem_filter.mpr ⟨hf0, hm⟩
    rw [hnil] at hmem
    cases hmem
  cases hfl : allfiles.filter (fun f => (pat f).isSome) with
  | nil => exact (hne hfl).elim
  | cons g rest =>
    have hg : g ∈ allfiles.filter (fun f => (pat f).isSome) := by
      rw [hfl]
      exact List.mem_cons_self _ _
    have hgm : (pat g).isSome = true := by
      have := List.mem_filter.mp hg
      simpa using this.2
    obtain ⟨m, hpm⟩ := parse_of_match_isSome pat g hgm
    have hcl : constraintsLoop m kwargs = .error .keyError :=
      constraintsLoop_unknown_key m kwargs true k c hk hu
    rw [List.foldlM_cons, fdStep_keyError pat kwargs [] g m hpm hcl]
    rfl

theorem find_datasets_unknown_key_fails_witness :
    ("bogus".toList, Constraint.single (PyVal.str "x".toList)) ∈
      [("bogus".toList, Constraint.single (PyVal.str "x".toList))] ∧
    recognizedKey "bogus".toList = false ∧
    (productMatch "S1A__IW___A_20150309T173017_VV_grd.tif".toList).isSome = true ∧
    find_datasets productMatch ["S1A__IW___A_20150309T173017_VV_grd.tif".toList]
      [("bogus".toList, Constraint.single (PyVal.str "x".toList))] =
      .error .keyError :=
  ⟨List.mem_cons_self _ _, by decide, by decide,
    find_datasets_unknown_key_fails productMatch
      ["S1A__IW___A_20150309T173017_VV_grd.tif".toList]
      [("bogus".toList, Constraint.single (PyVal.str "x".toList))]
      "bogus".toList (Constraint.single (PyVal.str "x".toList))
      (List.mem_cons_self _ _) (by decide)
      "S1A__IW___A_20150309T173017_VV_grd.tif".toList
      (List.mem_cons_self _ _) (by decide)⟩

theorem groupbyTime_empty_input_witness :
    groupbyTime (fun n : ℤ => n) 1 ([] : List ℤ) = none :=
  groupbyTime_empty_input (fun n : ℤ => n) 1
